import Mathlib

/-!
A shallow embedding of libswift's storage substrate (`src/storage.cpp`):
the `Storage` state machine (single-file vs. multi-file volumes), the
`StorageFile` backing files, manifest (multi-file spec) parsing, the
binary-search offset index, and the reservation/resize logic.

Machine integers (`int64_t` offsets and sizes) are modelled as `Int`;
byte buffers as `List Char`.  The host filesystem and the C library are
modelled by an explicit oracle/state record `FS`: pure oracle fields
decide the outcome of `open`, `pwrite`, `pread`, `stat` and `ftruncate`
calls, while the mutable fields (`disk`, `fileLen`, `resizeTrace`) track
the effects that the verified properties talk about.
-/

namespace Swift

/-- The `Storage::storage_state_t` enumeration from storage.cpp. -/
inductive StorState where
  | INIT
  | SINGLE_FILE
  | MFSPEC_SIZE_KNOWN
  | MFSPEC_COMPLETE
deriving DecidableEq, Repr

/-- `StorageFile`: backing file with logical range `[start_, end_]` and fd. -/
structure StorageFile where
  spec_pathname_ : String
  start_ : Int
  end_ : Int
  fd_ : Int
deriving DecidableEq, Repr

/-- Placeholder used for out-of-range vector accesses (never reached on the
paths the C++ code actually executes). -/
def dfltSF : StorageFile := ⟨"", 0, -1, -1⟩

/-- `StorageFile::GetSize() = end_ - start_ + 1`. -/
def sfSize (sf : StorageFile) : Int := sf.end_ - sf.start_ + 1

/-- The `Storage` object state (member variables of class Storage). -/
structure Storage where
  os_pathname_ : String
  state_ : StorState
  spec_size_ : Int
  single_fd_ : Int
  reserved_size_ : Int
  sfs_ : List StorageFile

/-- Filesystem / C-library model.  The first group of fields are pure
oracles fixing the outcome of each primitive (result of `open` by path,
byte count returned by `pwrite`/`pread`/`ftruncate`, `stat` size by path,
bytes at the head of an existing file, lines `fgets` yields for a path,
the hashtree's total size `ht_->size()`).  The second group is mutable
state threaded through the operations: per-fd byte contents `disk`,
per-fd length `fileLen`, and a ghost trace of `file_resize` invocations. -/
structure FS where
  openRes : String → Int
  pwriteCount : Int → Nat → Int → Int
  preadCount : Int → Nat → Int → Int
  resizeRes : Int → Int → Int
  fileSizeByPath : String → Int
  headBytes : String → List Char
  readLines : String → List (List Char)
  htSize : Int
  disk : Int → Int → Char
  fileLen : Int → Int
  resizeTrace : List (Int × Int)

/-- `Storage::MULTIFILE_PATHNAME`. -/
def MULTIFILE_PATHNAME : String := "META-INF-multifilespec.txt"

/-- The sentinel as a character list. -/
def sentinelChars : List Char := MULTIFILE_PATHNAME.data

/-- Overwrite `bytes` into the per-fd disk image at offset `off`. -/
def diskWrite (d : Int → Int → Char) (fd : Int) (off : Int) (bytes : List Char) :
    Int → Int → Char :=
  fun f p =>
    if f = fd ∧ off ≤ p ∧ p < off + (bytes.length : Int) then
      bytes.getD (p - off).toNat '\x00'
    else d f p

/-- POSIX `pwrite(fd, buf, n, off)`.  The oracle decides the returned byte
count; on a nonnegative count `r`, the first `min r n` bytes of `buf` land
on the disk image and the file length grows accordingly. -/
def pwriteM (fs : FS) (fd : Int) (buf : List Char) (n : Nat) (off : Int) : Int × FS :=
  let r := fs.pwriteCount fd n off
  if r < 0 then (r, fs)
  else
    let k := min r.toNat n
    ((k : Int),
     { fs with
        disk := diskWrite fs.disk fd off ((buf.take n).take k),
        fileLen := fun f => if f = fd then max (fs.fileLen f) (off + (k : Int)) else fs.fileLen f })

/-- POSIX `pread(fd, buf, n, off)`: returns the byte count and the bytes
deposited into the caller's buffer. -/
def preadM (fs : FS) (fd : Int) (n : Nat) (off : Int) : Int × List Char :=
  let r := fs.preadCount fd n off
  if r < 0 then (r, [])
  else
    let k := min r.toNat n
    ((k : Int), (List.range k).map (fun (i : Nat) => fs.disk fd (off + (i : Int))))

/-- `file_resize(fd, size)` from the compat layer: truncate/extend the file
to exactly `size` bytes.  Every invocation is recorded in the ghost trace. -/
def fileResize (fs : FS) (fd : Int) (sz : Int) : Int × FS :=
  let r := fs.resizeRes fd sz
  let fs1 := { fs with resizeTrace := fs.resizeTrace ++ [(fd, sz)] }
  if r < 0 then (r, fs1)
  else (r, { fs1 with fileLen := fun f => if f = fd then sz else fs1.fileLen f })

/-- The `StorageFile` constructor: `end_ = start + size - 1`, then derive
the OS path (identity on POSIX, where `FILE_SEP = "/"`), create parent
directories, and open read-write-create.  Directory creation failures and
the open result are folded into the `openRes` oracle deciding `fd_`. -/
def mkStorageFile (fs : FS) (utf8path : String) (start size : Int) : StorageFile :=
  { spec_pathname_ := utf8path
    start_ := start
    end_ := start + size - 1
    fd_ := fs.openRes utf8path }

/-- The loop of `Storage::FindStorageFile`: binary search with `int`
cursors `imin`, `imax`.  The C++ `while` loop is modelled with fuel; each
iteration shrinks `imax - imin + 1` by at least one, so any fuel of at
least `imax - imin + 1` iterations computes the loop's result. -/
def fsfLoop (sfs : List StorageFile) (offset : Int) :
    Nat → Int → Int → Option StorageFile
  | 0, _, _ => none
  | fuel + 1, imin, imax =>
    if imax < imin then none
    else
      let imid := (imin + imax) / 2
      let sf := sfs.getD imid.toNat dfltSF
      if offset ≥ sf.end_ + 1 then fsfLoop sfs offset fuel (imid + 1) imax
      else if offset < sf.start_ then fsfLoop sfs offset fuel imin (imid - 1)
      else some sf

/-- `Storage::FindStorageFile(offset)`: binary search for the StorageFile
managing the given offset; `NULL` becomes `none`. -/
def findStorageFile (sfs : List StorageFile) (offset : Int) : Option StorageFile :=
  fsfLoop sfs offset (sfs.length + 1) 0 ((sfs.length : Int) - 1)

/-- C `isspace` for the default locale (the characters `sscanf` skips). -/
def isWS (c : Char) : Bool :=
  c == ' ' || c == '\t' || c == '\n' || c == '\x0b' || c == '\x0c' || c == '\r'

/-- ASCII decimal digit test. -/
def isDigitCh (c : Char) : Bool := '0' ≤ c && c ≤ '9'

/-- Value of the maximal digit prefix, accumulated onto `acc`. -/
def takeDigitsVal : List Char → Int → Int
  | [], acc => acc
  | c :: rest, acc =>
    if isDigitCh c then takeDigitsVal rest (acc * 10 + ((c.toNat : Int) - 48))
    else acc

/-- Does the list start with a digit (so `%lld` performs a conversion)? -/
def hasDigit : List Char → Bool
  | [] => false
  | c :: _ => isDigitCh c

/-- `sscanf(s, "%lld", &v)`: skip whitespace, accept an optional sign and a
maximal digit run.  Returns the pair (result `n`, converted value):
`n = 1` on a successful conversion, `n = 0` on a matching failure, and
`n = EOF = -1` when the input is exhausted before any conversion.  The
value component is `0` when no conversion happened (the C variable is
initialised to `0` at both call sites). -/
def sscanfLLD (s : List Char) : Int × Int :=
  let t := s.dropWhile isWS
  match t with
  | [] => (-1, 0)
  | '-' :: rest => if hasDigit rest then (1, -(takeDigitsVal rest 0)) else (0, 0)
  | '+' :: rest => if hasDigit rest then (1, takeDigitsVal rest 0) else (0, 0)
  | l => if hasDigit l then (1, takeDigitsVal l 0) else (0, 0)

/-- `specpath.substr(0,1) == MULTIFILE_PATHNAME_FILE_SEP` ("/"). -/
def startsWithSep : List Char → Bool
  | '/' :: _ => true
  | _ => false

/-- `specpath.find("..") != npos`: does the string contain `".."`? -/
def hasDotDot : List Char → Bool
  | '.' :: '.' :: _ => true
  | _ :: rest => hasDotDot rest
  | [] => false

/-- `pline.rfind(' ', pline.length()-1)`: index of the last space, if any. -/
def rfindSpace : List Char → Option Nat
  | [] => none
  | c :: rest =>
    match rfindSpace rest with
    | some i => some (i + 1)
    | none => if c = ' ' then some 0 else none

/-- `specpath = pline.substr(0, idx)`; when there is no space, `idx` is
`npos` and `substr(0, npos)` yields the whole line. -/
def specField (l : List Char) : List Char :=
  match rfindSpace l with
  | some i => l.take i
  | none => l

/-- `sizestr = pline.substr(idx+1, ...)`; when `idx = npos`, `idx+1`
wraps around to `0`, so the whole line is taken. -/
def sizeField (l : List Char) : List Char :=
  match rfindSpace l with
  | some i => l.drop (i + 1)
  | none => l

/-- The line loop of `Storage::ParseSpec`.  `sf0` is the StorageFile the
spec was handed (`files[0]`), `offset` the running logical offset, and
`acc` the entries appended to `sfs_` so far.  Returns the final status
(`0` ok, `-1` error) and the appended entries; on error the entries
appended before the failing line remain (the C++ loop `break`s, leaving
`sfs_` as it is). -/
def parseSpecLoop (fs : FS) (sf0 : StorageFile) :
    List (List Char) → Int → List StorageFile → Int × List StorageFile
  | [], _, acc => (0, acc)
  | line :: rest, offset, acc =>
    let specpath := specField line
    let pr := sscanfLLD (sizeField line)
    if pr.1 = 0 then (-1, acc)
    else if startsWithSep specpath then (-1, acc)
    else if hasDotDot specpath then (-1, acc)
    else if offset = 0 then
      parseSpecLoop fs sf0 rest (offset + sfSize sf0) acc
    else
      let nf := mkStorageFile fs (String.mk specpath) offset pr.2
      parseSpecLoop fs sf0 rest (offset + pr.2) (acc ++ [nf])

/-- `Storage::ParseSpec(sf)` as a function of the lines `fgets` yields for
the opened spec file: returns the status and the entries pushed onto
`sfs_`. -/
def parseSpec (fs : FS) (lines : List (List Char)) (sf0 : StorageFile) :
    Int × List StorageFile :=
  parseSpecLoop fs sf0 lines 0 []

/-- The summation loop of `Storage::GetReservedSize` in the multi-file
case: add up `file_size_by_path` over all backing files, propagating the
first negative stat result. -/
def sumDiskSizes (fs : FS) : List StorageFile → Int → Int
  | [], acc => acc
  | sf :: rest, acc =>
    let s := fs.fileSizeByPath sf.spec_pathname_
    if s < 0 then s else sumDiskSizes fs rest (acc + s)

/-- `Storage::GetReservedSize()`. -/
def getReservedSize (fs : FS) (st : Storage) : Int :=
  if st.state_ = StorState.SINGLE_FILE then fs.fileLen st.single_fd_
  else if st.state_ ≠ StorState.MFSPEC_COMPLETE then -1
  else sumDiskSizes fs st.sfs_ 0

/-- Modelled from the spec: `StorageFile::ResizeReserved()` is declared in
the repository's header (not under src/); per §4.1 it extends the file to
exactly `size = end - start + 1` bytes, returning a negative status on
failure.  This is the loop over all backing files in
`Storage::ResizeReserved`, stopping at the first failure. -/
def resizeFiles : FS → List StorageFile → Int × FS
  | fs, [] => (0, fs)
  | fs, sf :: rest =>
    let p := fileResize fs sf.fd_ (sfSize sf)
    if p.1 < 0 then p else resizeFiles p.2 rest

/-- `Storage::ResizeReserved(size)`. -/
def resizeReserved (fs : FS) (st : Storage) (size : Int) : Int × Storage × FS :=
  if st.state_ = StorState.SINGLE_FILE then
    let p := fileResize fs st.single_fd_ size
    (p.1, st, p.2)
  else if st.state_ = StorState.INIT then
    (0, { st with reserved_size_ := size }, fs)
  else if st.state_ ≠ StorState.MFSPEC_COMPLETE then (-1, st, fs)
  else
    if size > getReservedSize fs st then
      let p := resizeFiles fs st.sfs_
      if p.1 < 0 then (p.1, st, p.2) else (0, st, p.2)
    else (0, st, fs)

/-- `Storage::OpenSingleFile()`: set `state_` to SINGLE_FILE, open
`os_pathname_` (fd forced to `-1` on failure), replay a postponed
reservation if one was recorded, and return `single_fd_`. -/
def openSingleFile (fs : FS) (st : Storage) : Int × Storage × FS :=
  let st1 := { st with state_ := StorState.SINGLE_FILE }
  let fd0 := fs.openRes st1.os_pathname_
  let st2 := { st1 with single_fd_ := if fd0 < 0 then -1 else fd0 }
  if st2.reserved_size_ ≠ -1 then
    let q := resizeReserved fs st2 st2.reserved_size_
    if q.1 < 0 then q else (q.2.1.single_fd_, q.2.1, q.2.2)
  else (st2.single_fd_, st2, fs)

/-- `Storage::WriteBuffer(sf, buf, nbyte, offset)`: write the part of the
buffer that belongs to `sf`, returning `(head, tail)` byte counts, or
`(-1, -1)` if the underlying write failed. -/
def writeBuffer (fs : FS) (sf : StorageFile) (buf : List Char) (n : Nat) (off : Int) :
    (Int × Int) × FS :=
  if off + (n : Int) ≤ sf.end_ + 1 then
    let p := pwriteM fs sf.fd_ buf n (off - sf.start_)
    if p.1 < 0 then ((-1, -1), p.2) else (((n : Int), 0), p.2)
  else
    let head := sf.end_ + 1 - off
    let tail := (n : Int) - head
    let p := pwriteM fs sf.fd_ buf head.toNat (off - sf.start_)
    if p.1 < 0 then ((-1, -1), p.2) else ((head, tail), p.2)

/-- The body of `Storage::WriteSpecPart(sf, buf, nbyte, offset)`,
parameterised by the (recursive) `Storage::Write` it re-enters after the
spec is completed and parsed. -/
def writeSpecPartCore
    (wr : FS → Storage → List Char → Nat → Int → Int × Storage × FS)
    (fs : FS) (st : Storage) (sf : StorageFile)
    (buf : List Char) (n : Nat) (off : Int) : Int × Storage × FS :=
  let p := writeBuffer fs sf buf n off
  if p.1.1 = -1 then (-1, st, p.2)
  else if off + p.1.1 = sf.end_ + 1 then
    let pr := parseSpec p.2 (p.2.readLines sf.spec_pathname_) sf
    let stP := { st with state_ := StorState.MFSPEC_COMPLETE, sfs_ := st.sfs_ ++ pr.2 }
    if pr.1 < 0 then (-1, stP, p.2)
    else
      let w := wr p.2 stP (buf.drop p.1.1.toNat) p.1.2.toNat (off + p.1.1)
      if w.1 < 0 then w
      else (p.1.1 + w.1, w.2.1, w.2.2)
  else (p.1.1, { st with state_ := StorState.MFSPEC_SIZE_KNOWN }, p.2)

/-- `Storage::Write(buf, nbyte, offset)`.  General recursion (boundary
spill-over, re-entry after mode discovery) is modelled with fuel; every
recursive call consumes one unit, and all C++ executions are reproduced
by any sufficiently large fuel. -/
def writeM : Nat → FS → Storage → List Char → Nat → Int → Int × Storage × FS
  | 0, fs, st, _, _, _ => (-1, st, fs)
  | fuel + 1, fs, st, buf, n, off =>
    match st.state_ with
    | StorState.SINGLE_FILE =>
      let p := pwriteM fs st.single_fd_ buf n off
      (p.1, st, p.2)
    | StorState.INIT =>
      if off ≠ 0 then (-1, st, fs)
      else if sentinelChars.isPrefixOf buf then
        let pr := sscanfLLD (buf.drop (sentinelChars.length + 1))
        if pr.1 ≠ 1 then (-1, st, fs)
        else
          let sf := mkStorageFile fs MULTIFILE_PATHNAME 0 pr.2
          let st1 := { st with spec_size_ := pr.2, sfs_ := st.sfs_ ++ [sf] }
          writeSpecPartCore (fun a b c d e => writeM fuel a b c d e) fs st1 sf buf n off
      else
        let q := openSingleFile fs st
        if q.1 < 0 then (-1, q.2.1, q.2.2)
        else writeM fuel q.2.2 q.2.1 buf n off
    | StorState.MFSPEC_SIZE_KNOWN =>
      writeSpecPartCore (fun a b c d e => writeM fuel a b c d e) fs st
        (st.sfs_.headD dfltSF) buf n off
    | StorState.MFSPEC_COMPLETE =>
      match findStorageFile st.sfs_ off with
      | none => (-1, st, fs)
      | some sf =>
        let p := writeBuffer fs sf buf n off
        if p.1.1 = -1 then (-1, st, p.2)
        else if p.1.2 > 0 then
          let w := writeM fuel p.2 st (buf.drop p.1.1.toNat) p.1.2.toNat (off + p.1.1)
          if w.1 < 0 then w
          else (p.1.1 + w.1, w.2.1, w.2.2)
        else (p.1.1, st, p.2)

/-- `Storage::WriteSpecPart(sf, buf, nbyte, offset)` with `fuel` units
available for the re-entrant `Write`. -/
def writeSpecPart (fuel : Nat) (fs : FS) (st : Storage) (sf : StorageFile)
    (buf : List Char) (n : Nat) (off : Int) : Int × Storage × FS :=
  writeSpecPartCore (fun a b c d e => writeM fuel a b c d e) fs st sf buf n off

/-- `Storage::Read(buf, nbyte, offset)`: returns the byte count and the
bytes deposited into the caller's buffer.  `Read` mutates neither the
`Storage` object nor the filesystem. -/
def readM : Nat → FS → Storage → Nat → Int → Int × List Char
  | 0, _, _, _, _ => (-1, [])
  | fuel + 1, fs, st, n, off =>
    match st.state_ with
    | StorState.SINGLE_FILE => preadM fs st.single_fd_ n off
    | StorState.INIT => (-1, [])
    | _ =>
      match findStorageFile st.sfs_ off with
      | none => (-1, [])
      | some sf =>
        let p := preadM fs sf.fd_ n (off - sf.start_)
        if p.1 < 0 then p
        else if p.1 < (n : Int) ∧ off + p.1 ≠ fs.htSize then
          let q := readM fuel fs st (n - p.1.toNat) (off + p.1)
          if q.1 < 0 then (q.1, p.2)
          else (p.1 + q.1, p.2 ++ q.2)
        else p

/-- The `Storage::Storage(pathname)` constructor: stat the path; missing →
stay INIT; head equal to the sentinel → MFSPEC_COMPLETE, push a
StorageFile for the whole spec and parse it from disk (a parse error is
only printed); otherwise open as a single-file swarm.  A negative stat is
modelled as ENOENT (the only errno the code distinguishes). -/
def storageCtor (fs : FS) (pathname : String) : Storage × FS :=
  let st0 : Storage := ⟨pathname, StorState.INIT, 0, -1, -1, []⟩
  let fsize := fs.fileSizeByPath pathname
  if fsize < 0 then (st0, fs)
  else if sentinelChars.isPrefixOf (fs.headBytes pathname) then
    let sf := mkStorageFile fs pathname 0 fsize
    let pr := parseSpec fs (fs.readLines sf.spec_pathname_) sf
    ({ st0 with state_ := StorState.MFSPEC_COMPLETE, sfs_ := [sf] ++ pr.2 }, fs)
  else
    let q := openSingleFile fs st0
    (q.2.1, q.2.2)

/-- One exposed operation of the in-process API (§6.3). -/
inductive StOp where
  | write (buf : List Char) (n : Nat) (off : Int)
  | readOp (n : Nat) (off : Int)
  | resize (sz : Int)
  | getSize

/-- Apply one API operation to the volume. -/
def runOp (fuel : Nat) (fs : FS) (st : Storage) : StOp → Storage × FS
  | StOp.write buf n off =>
    let w := writeM fuel fs st buf n off
    (w.2.1, w.2.2)
  | StOp.readOp n off =>
    let _ := readM fuel fs st n off
    (st, fs)
  | StOp.resize sz =>
    let q := resizeReserved fs st sz
    (q.2.1, q.2.2)
  | StOp.getSize =>
    let _ := getReservedSize fs st
    (st, fs)

/-- Apply a sequence of API operations. -/
def runOps (fuel : Nat) : List StOp → FS → Storage → Storage × FS
  | [], fs, st => (st, fs)
  | op :: rest, fs, st =>
    let q := runOp fuel fs st op
    runOps fuel rest q.2 q.1

/-- Helper for `contigB`: every adjacent pair `prev, x` of the list
satisfies `prev.end_ + 1 = x.start_`. -/
def chainContig : StorageFile → List StorageFile → Bool
  | _, [] => true
  | prev, x :: xs => (prev.end_ + 1 == x.start_) && chainContig x xs

/-- Contiguity invariant: `files[i].end_ + 1 = files[i+1].start_`. -/
def contigB : List StorageFile → Bool
  | [] => true
  | x :: xs => chainContig x xs

/-- Helper for `sortedB`. -/
def chainSorted : StorageFile → List StorageFile → Bool
  | _, [] => true
  | prev, x :: xs => (decide (prev.start_ ≤ x.start_)) && chainSorted x xs

/-- Sortedness by `start_` of consecutive entries. -/
def sortedB : List StorageFile → Bool
  | [] => true
  | x :: xs => chainSorted x xs

/-- Every file's logical size `end_ - start_ + 1` is nonnegative. -/
def sizesOkB (sfs : List StorageFile) : Bool :=
  sfs.all (fun sf => decide (sf.start_ ≤ sf.end_ + 1))

/-- A chain of files starting exactly at `o`, each followed contiguously. -/
def chainFromB : Int → List StorageFile → Bool
  | _, [] => true
  | o, x :: xs => (decide (x.start_ = o)) && chainFromB (x.end_ + 1) xs

/-- Baseline filesystem fixture: every primitive succeeds, distinct fds per
path, the spec file's lines describe a 40-byte manifest plus `a/b` (3
bytes) and `c` (5 bytes). -/
def okFS : FS :=
  { openRes := fun p =>
      if p = "META-INF-multifilespec.txt" then 3
      else if p = "a/b" then 4
      else if p = "c" then 5
      else 9
    pwriteCount := fun _ n _ => (n : Int)
    preadCount := fun _ n _ => (n : Int)
    resizeRes := fun _ _ => 0
    fileSizeByPath := fun _ => -1
    headBytes := fun _ => []
    readLines := fun p =>
      if p = "META-INF-multifilespec.txt" then
        ["META-INF-multifilespec.txt 40\n".data, "a/b 3\n".data, "c 5\n".data]
      else []
    htSize := 48
    disk := fun _ _ => '\x00'
    fileLen := fun _ => 0
    resizeTrace := [] }

/-- A manifest StorageFile of declared size 10 at offset 0 (files[0]). -/
def m0 : StorageFile := mkStorageFile okFS "META-INF-multifilespec.txt" 0 10

/-- A volume in MFSPEC_COMPLETE with files `m (0..39)`, `a/b (40..42)`,
`c (43..47)` (the state S2 of the spec reaches). -/
def cSt : Storage :=
  ⟨"/tmp/m", StorState.MFSPEC_COMPLETE, 40, -1, -1,
    [⟨"META-INF-multifilespec.txt", 0, 39, 3⟩, ⟨"a/b", 40, 42, 4⟩, ⟨"c", 43, 47, 5⟩]⟩

/-- Filesystem where writes to fd 5 (file `c`) fail and all others
succeed: used to exercise a failing tail write. -/
def c1FS : FS := { okFS with pwriteCount := fun fd n _ => if fd = 5 then -1 else (n : Int) }

/-- Manifest lines containing a negative declared size (`b -3`). -/
def c2Lines : List (List Char) :=
  ["META-INF-multifilespec.txt 10\n".data, "a 5\n".data, "b -3\n".data, "c 4\n".data]

/-- Filesystem for constructing a seeder on the absolute path `/x`: the
path exists (100 bytes), its head bytes equal the sentinel, and the spec
file on disk yields no lines. -/
def c3FS : FS :=
  { okFS with
      fileSizeByPath := fun p => if p = "/x" then 100 else -1
      headBytes := fun p => if p = "/x" then sentinelChars else []
      readLines := fun _ => [] }

/-- Manifest lines whose second record has an empty size field. -/
def c4Lines : List (List Char) :=
  ["META-INF-multifilespec.txt 10\n".data, "a \n".data]

/-- Filesystem where opening any path fails. -/
def c10FS : FS := { okFS with openRes := fun _ => -1 }

/-- A freshly constructed Volume in INIT (leecher on a missing path). -/
def iSt : Storage := ⟨"/tmp/v", StorState.INIT, 0, -1, -1, []⟩

/-- A Volume in SINGLE_FILE state with open handle 7. -/
def c7St : Storage := ⟨"/tmp/v", StorState.SINGLE_FILE, 0, 7, -1, []⟩

/-- Filesystem whose spec file `m` (size 10) lists one content file `c`
of size 5. -/
def c6FS : FS :=
  { okFS with readLines := fun p => if p = "m" then ["m 10\n".data, "c 5\n".data] else [] }

/-- A Volume in MFSPEC_SIZE_KNOWN holding the 10-byte spec file `m`. -/
def st6 : Storage := ⟨"x", StorState.MFSPEC_SIZE_KNOWN, 10, -1, -1, [⟨"m", 0, 9, 3⟩]⟩

/-- Like `c6FS` but writes to fd 5 (content file `c`) fail. -/
def c1bFS : FS := { c6FS with pwriteCount := fun fd n _ => if fd = 5 then -1 else (n : Int) }

/-- Well-formed manifest lines: the self entry plus `a` of size 5. -/
def c2wLines : List (List Char) :=
  ["META-INF-multifilespec.txt 10\n".data, "a 5\n".data]

/-! ### Theorems -/

/-- `pwrite` touches only the disk image and file length. -/
theorem pwriteM_resizeTrace (fs : FS) (fd : Int) (buf : List Char) (n : Nat) (off : Int) :
    ((pwriteM fs fd buf n off).2).resizeTrace = fs.resizeTrace := by
  unfold pwriteM
  dsimp only
  split <;> rfl

/-- `pwrite` does not change the oracle fields. -/
theorem pwriteM_preadCount (fs : FS) (fd : Int) (buf : List Char) (n : Nat) (off : Int) :
    ((pwriteM fs fd buf n off).2).preadCount = fs.preadCount := by
  unfold pwriteM
  dsimp only
  split <;> rfl

/-- `WriteBuffer` leaves the resize trace unchanged. -/
theorem writeBuffer_resizeTrace (fs : FS) (sf : StorageFile) (buf : List Char) (n : Nat)
    (off : Int) : ((writeBuffer fs sf buf n off).2).resizeTrace = fs.resizeTrace := by
  unfold writeBuffer
  dsimp only
  split <;> (split <;> simp [pwriteM_resizeTrace])

/-- In SINGLE_FILE state, `Write` leaves the Storage object unchanged. -/
theorem writeM_single_storage (fuel : Nat) (fs : FS) (st : Storage) (buf : List Char)
    (n : Nat) (off : Int) (h : st.state_ = StorState.SINGLE_FILE) :
    (writeM fuel fs st buf n off).2.1 = st := by
  cases fuel with
  | zero => rfl
  | succ k => simp only [writeM, h]

/-- In MFSPEC_COMPLETE state, `Write` leaves the Storage object unchanged
(it only dispatches to backing files, recursing on boundary spill). -/
theorem writeM_complete_storage (fuel : Nat) :
    ∀ (fs : FS) (st : Storage) (buf : List Char) (n : Nat) (off : Int),
      st.state_ = StorState.MFSPEC_COMPLETE →
      (writeM fuel fs st buf n off).2.1 = st := by
  induction fuel with
  | zero => intro fs st buf n off _; rfl
  | succ k ih =>
    intro fs st buf n off h
    simp only [writeM, h]
    cases hf : findStorageFile st.sfs_ off with
    | none => rfl
    | some sf =>
      simp only
      split
      · rfl
      · split
        · split
          · exact ih _ _ _ _ _ h
          · simp only
            exact ih _ _ _ _ _ h
        · rfl

/-- `WriteSpecPart` never invokes `file_resize`, provided the re-entrant
`Write` it delegates to does not in MFSPEC_COMPLETE state. -/
theorem writeSpecPartCore_resizeTrace
    (wr : FS → Storage → List Char → Nat → Int → Int × Storage × FS)
    (hwr : ∀ fs st buf n off, st.state_ = StorState.MFSPEC_COMPLETE →
      ((wr fs st buf n off).2.2).resizeTrace = fs.resizeTrace)
    (fs : FS) (st : Storage) (sf : StorageFile) (buf : List Char) (n : Nat) (off : Int) :
    ((writeSpecPartCore wr fs st sf buf n off).2.2).resizeTrace = fs.resizeTrace := by
  unfold writeSpecPartCore
  dsimp only
  split
  · exact writeBuffer_resizeTrace fs sf buf n off
  · split
    · split
      · exact writeBuffer_resizeTrace fs sf buf n off
      · split
        · rw [hwr _ _ _ _ _ rfl]
          exact writeBuffer_resizeTrace fs sf buf n off
        · dsimp only
          rw [hwr _ _ _ _ _ rfl]
          exact writeBuffer_resizeTrace fs sf buf n off
    · exact writeBuffer_resizeTrace fs sf buf n off

/-- In any state other than INIT, `Write` never invokes `file_resize`:
the resize trace is unchanged. -/
theorem writeM_resizeTrace (fuel : Nat) :
    ∀ (fs : FS) (st : Storage) (buf : List Char) (n : Nat) (off : Int),
      st.state_ ≠ StorState.INIT →
      ((writeM fuel fs st buf n off).2.2).resizeTrace = fs.resizeTrace := by
  induction fuel with
  | zero => intro fs st buf n off _; rfl
  | succ k ih =>
    intro fs st buf n off h
    match hst : st.state_ with
    | StorState.INIT => exact absurd hst h
    | StorState.SINGLE_FILE =>
      simp only [writeM, hst]
      exact pwriteM_resizeTrace fs st.single_fd_ buf n off
    | StorState.MFSPEC_SIZE_KNOWN =>
      simp only [writeM, hst]
      exact writeSpecPartCore_resizeTrace _ (fun a b c d e hb => ih a b c d e (by rw [hb]; intro hc; cases hc)) _ _ _ _ _ _
    | StorState.MFSPEC_COMPLETE =>
      simp only [writeM, hst]
      cases hf : findStorageFile st.sfs_ off with
      | none => rfl
      | some sf =>
        simp only
        split
        · exact writeBuffer_resizeTrace fs sf buf n off
        · split
          · split
            · rw [ih _ _ _ _ _ (by rw [hst]; intro hc; cases hc)]
              exact writeBuffer_resizeTrace fs sf buf n off
            · dsimp only
              rw [ih _ _ _ _ _ (by rw [hst]; intro hc; cases hc)]
              exact writeBuffer_resizeTrace fs sf buf n off
          · exact writeBuffer_resizeTrace fs sf buf n off

/-- From INIT, a write whose buffer head matches the manifest sentinel
(the multi-file transition) never invokes `file_resize`: the postponed
reservation is not replayed on the multi-file path. -/
theorem writeM_init_sentinel_trace (fuel : Nat) (fs : FS) (st : Storage) (buf : List Char)
    (n : Nat) (hst : st.state_ = StorState.INIT)
    (hp : sentinelChars.isPrefixOf buf = true) :
    ((writeM fuel fs st buf n 0).2.2).resizeTrace = fs.resizeTrace := by
  cases fuel with
  | zero => rfl
  | succ k =>
    simp only [writeM, hst, hp, if_true]
    by_cases hn : (sscanfLLD (List.drop (sentinelChars.length + 1) buf)).1 ≠ 1
    · rw [if_pos hn]
      simp
    · rw [if_neg hn]
      exact writeSpecPartCore_resizeTrace _
        (fun a b c d e hb => writeM_resizeTrace k a b c d e (by rw [hb]; intro hc; cases hc)) _ _ _ _ _ _

/-- `ResizeReserved` changes the Storage object only in INIT (where it
records the postponed size). -/
theorem resizeReserved_storage (fs : FS) (st : Storage) (sz : Int)
    (h : st.state_ ≠ StorState.INIT) : (resizeReserved fs st sz).2.1 = st := by
  unfold resizeReserved
  dsimp only
  split_ifs <;> rfl

/-- A single API operation leaves a Storage in a terminal state unchanged. -/
theorem runOp_storage_terminal (fuel : Nat) (fs : FS) (st : Storage) (op : StOp)
    (h : st.state_ = StorState.SINGLE_FILE ∨ st.state_ = StorState.MFSPEC_COMPLETE) :
    (runOp fuel fs st op).1 = st := by
  cases op with
  | write buf n off =>
    cases h with
    | inl h1 => exact writeM_single_storage fuel fs st buf n off h1
    | inr h2 => exact writeM_complete_storage fuel fs st buf n off h2
  | readOp n off => rfl
  | resize sz =>
    refine resizeReserved_storage fs st sz ?_
    cases h with
    | inl h1 => rw [h1]; intro hc; cases hc
    | inr h2 => rw [h2]; intro hc; cases hc
  | getSize => rfl

/-- A sequence of API operations leaves a Storage in a terminal state
unchanged. -/
theorem runOps_storage_terminal (fuel : Nat) (ops : List StOp) :
    ∀ (fs : FS) (st : Storage),
      st.state_ = StorState.SINGLE_FILE ∨ st.state_ = StorState.MFSPEC_COMPLETE →
      (runOps fuel ops fs st).1 = st := by
  induction ops with
  | nil => intro fs st _; rfl
  | cons op rest ih =>
    intro fs st h
    simp only [runOps]
    rw [runOp_storage_terminal fuel fs st op h]
    exact ih _ st h

/-- C9: once a Volume is in a terminal state (SINGLE_FILE or
MFSPEC_COMPLETE), no sequence of Write, Read, ResizeReserved or
GetReservedSize calls changes the state again. -/
theorem c9_terminal_states_absorbing (fuel : Nat) (ops : List StOp) (fs : FS) (st : Storage)
    (h : st.state_ = StorState.SINGLE_FILE ∨ st.state_ = StorState.MFSPEC_COMPLETE) :
    (runOps fuel ops fs st).1.state_ = st.state_ := by
  rw [runOps_storage_terminal fuel ops fs st h]

/-- Witness for C9: a concrete MFSPEC_COMPLETE volume stays
MFSPEC_COMPLETE across a write, a resize, a read and a size query. -/
theorem c9_witness :
    (runOps 3 [StOp.write "AB".data 2 0, StOp.resize 99, StOp.readOp 2 0, StOp.getSize]
        okFS cSt).1.state_ = StorState.MFSPEC_COMPLETE :=
  c9_terminal_states_absorbing 3
    [StOp.write "AB".data 2 0, StOp.resize 99, StOp.readOp 2 0, StOp.getSize]
    okFS cSt (Or.inr rfl)

/-- C10: `OpenSingleFile` sets the state to SINGLE_FILE before checking
the open result; when the open of `root_path` fails, the Volume still
ends in the terminal SINGLE_FILE state with `single_fd_ = -1` (INIT is
not restored), and every subsequent Write or Read is a positional
`pwrite`/`pread` on the invalid handle `-1`. -/
theorem c10_openSingleFile_failure (fs : FS) (st : Storage)
    (hopen : fs.openRes st.os_pathname_ < 0) :
    (openSingleFile fs st).2.1.state_ = StorState.SINGLE_FILE
    ∧ (openSingleFile fs st).2.1.single_fd_ = -1
    ∧ (∀ (fs2 : FS) (buf : List Char) (n : Nat) (off : Int) (fuel : Nat),
        (writeM (fuel + 1) fs2 (openSingleFile fs st).2.1 buf n off).1
          = (pwriteM fs2 (-1) buf n off).1)
    ∧ (∀ (fs2 : FS) (n : Nat) (off : Int) (fuel : Nat),
        (readM (fuel + 1) fs2 (openSingleFile fs st).2.1 n off).1
          = (preadM fs2 (-1) n off).1) := by
  have hne : ({ st with state_ := StorState.SINGLE_FILE, single_fd_ := -1 } : Storage).state_
      ≠ StorState.INIT := by
    intro hc
    cases hc
  have hst : (openSingleFile fs st).2.1 =
      { st with state_ := StorState.SINGLE_FILE, single_fd_ := -1 } := by
    unfold openSingleFile
    dsimp only
    rw [if_pos hopen]
    split
    · split
      · rw [resizeReserved_storage _ _ _ hne]
      · rw [resizeReserved_storage _ _ _ hne]
    · rfl
  refine ⟨by rw [hst], by rw [hst], ?_, ?_⟩
  · intro fs2 buf n off fuel
    rw [hst]
    simp only [writeM]
  · intro fs2 n off fuel
    rw [hst]
    simp only [readM, preadM]

/-- Witness for C10: with an oracle whose open always fails, the Volume
lands in SINGLE_FILE with fd `-1` and a subsequent write is a `pwrite`
on fd `-1`. -/
theorem c10_witness :
    c10FS.openRes iSt.os_pathname_ < 0
    ∧ (openSingleFile c10FS iSt).2.1.state_ = StorState.SINGLE_FILE
    ∧ (openSingleFile c10FS iSt).2.1.single_fd_ = -1
    ∧ (writeM 2 okFS (openSingleFile c10FS iSt).2.1 "A".data 1 0).1
        = (pwriteM okFS (-1) "A".data 1 0).1
    ∧ (readM 2 okFS (openSingleFile c10FS iSt).2.1 1 0).1 = (preadM okFS (-1) 1 0).1 :=
  ⟨by decide,
   (c10_openSingleFile_failure c10FS iSt (by decide)).1,
   (c10_openSingleFile_failure c10FS iSt (by decide)).2.1,
   (c10_openSingleFile_failure c10FS iSt (by decide)).2.2.1 okFS "A".data 1 0 1,
   (c10_openSingleFile_failure c10FS iSt (by decide)).2.2.2 okFS 1 0 1⟩

/-- C1 (amended): when a write straddles a BackingFile boundary and the
head write succeeds but the recursive tail write fails with a negative
return, the call propagates that failure code (so the caller sees a
negative status, not the head byte count); likewise for the re-entrant
write after `WriteSpecPart` completes the manifest.  The caller observes
`returned < n` only when the tail write itself returns a short positive
count. -/
theorem c1_amended_tail_failure (fuel : Nat) (fs : FS) (st : Storage) (sf : StorageFile)
    (buf : List Char) (n : Nat) (off : Int) :
    (st.state_ = StorState.MFSPEC_COMPLETE →
      findStorageFile st.sfs_ off = some sf →
      (writeBuffer fs sf buf n off).1.1 ≠ -1 →
      0 < (writeBuffer fs sf buf n off).1.2 →
      (writeM fuel (writeBuffer fs sf buf n off).2 st
          (buf.drop (writeBuffer fs sf buf n off).1.1.toNat)
          (writeBuffer fs sf buf n off).1.2.toNat
          (off + (writeBuffer fs sf buf n off).1.1)).1 < 0 →
      (writeM (fuel + 1) fs st buf n off).1 =
        (writeM fuel (writeBuffer fs sf buf n off).2 st
          (buf.drop (writeBuffer fs sf buf n off).1.1.toNat)
          (writeBuffer fs sf buf n off).1.2.toNat
          (off + (writeBuffer fs sf buf n off).1.1)).1
      ∧ (writeM (fuel + 1) fs st buf n off).1 < 0)
    ∧ ((writeBuffer fs sf buf n off).1.1 ≠ -1 →
      off + (writeBuffer fs sf buf n off).1.1 = sf.end_ + 1 →
      ¬(parseSpec (writeBuffer fs sf buf n off).2
          ((writeBuffer fs sf buf n off).2.readLines sf.spec_pathname_) sf).1 < 0 →
      (writeM fuel (writeBuffer fs sf buf n off).2
          ({ st with state_ := StorState.MFSPEC_COMPLETE, sfs_ := st.sfs_ ++ (parseSpec (writeBuffer fs sf buf n off).2 ((writeBuffer fs sf buf n off).2.readLines sf.spec_pathname_) sf).2 })
          (buf.drop (writeBuffer fs sf buf n off).1.1.toNat)
          (writeBuffer fs sf buf n off).1.2.toNat
          (off + (writeBuffer fs sf buf n off).1.1)).1 < 0 →
      (writeSpecPart fuel fs st sf buf n off).1 =
        (writeM fuel (writeBuffer fs sf buf n off).2
          ({ st with state_ := StorState.MFSPEC_COMPLETE, sfs_ := st.sfs_ ++ (parseSpec (writeBuffer fs sf buf n off).2 ((writeBuffer fs sf buf n off).2.readLines sf.spec_pathname_) sf).2 })
          (buf.drop (writeBuffer fs sf buf n off).1.1.toNat)
          (writeBuffer fs sf buf n off).1.2.toNat
          (off + (writeBuffer fs sf buf n off).1.1)).1
      ∧ (writeSpecPart fuel fs st sf buf n off).1 < 0) := by
  constructor
  · intro hst hfind hh ht hw
    have hcall : writeM (fuel + 1) fs st buf n off =
        writeM fuel (writeBuffer fs sf buf n off).2 st
          (buf.drop (writeBuffer fs sf buf n off).1.1.toNat)
          (writeBuffer fs sf buf n off).1.2.toNat
          (off + (writeBuffer fs sf buf n off).1.1) := by
      simp only [writeM, hst, hfind]
      rw [if_neg hh, if_pos ht, if_pos hw]
    rw [hcall]
    exact ⟨rfl, hw⟩
  · intro hh hoff hpr hw
    have hcall : writeSpecPart fuel fs st sf buf n off =
        writeM fuel (writeBuffer fs sf buf n off).2
          ({ st with state_ := StorState.MFSPEC_COMPLETE, sfs_ := st.sfs_ ++ (parseSpec (writeBuffer fs sf buf n off).2 ((writeBuffer fs sf buf n off).2.readLines sf.spec_pathname_) sf).2 })
          (buf.drop (writeBuffer fs sf buf n off).1.1.toNat)
          (writeBuffer fs sf buf n off).1.2.toNat
          (off + (writeBuffer fs sf buf n off).1.1) := by
      unfold writeSpecPart writeSpecPartCore
      dsimp only
      rw [if_neg hh, if_pos hoff, if_neg hpr, if_pos hw]
    rw [hcall]
    exact ⟨rfl, hw⟩

/-- Witness for C1 (amended): concrete straddling writes whose tail write
fails; both the MFSPEC_COMPLETE dispatch and the WriteSpecPart re-entry
return the negative failure code. -/
theorem c1_amended_witness :
    ((writeM 3 c1FS cSt "AAABBBBB".data 8 40).1 =
        (writeM 2 (writeBuffer c1FS ⟨"a/b", 40, 42, 4⟩ "AAABBBBB".data 8 40).2 cSt
          ("AAABBBBB".data.drop 3) 5 43).1
      ∧ (writeM 3 c1FS cSt "AAABBBBB".data 8 40).1 < 0)
    ∧ ((writeSpecPart 2 c1bFS st6 ⟨"m", 0, 9, 3⟩ "0123456789AB".data 12 0).1 < 0) := by
  constructor
  · exact (c1_amended_tail_failure 2 c1FS cSt ⟨"a/b", 40, 42, 4⟩ "AAABBBBB".data 8 40).1
      (by decide) (by decide) (by decide) (by decide) (by decide)
  · exact ((c1_amended_tail_failure 2 c1bFS st6 ⟨"m", 0, 9, 3⟩ "0123456789AB".data 12 0).2
      (by decide) (by decide) (by decide) (by decide)).2

/-- C6: for every successful `WriteSpecPart` call, writing head_len bytes
into the spec file: if `off + head_len = files[0].end + 1` the manifest is
complete — the state transitions to MFSPEC_COMPLETE, the manifest is
parsed (successfully, appending its entries to `files`), and `Write`
recurses on the remaining tail bytes at `off + head_len`, the call
returning `head_len` plus the tail result; otherwise the state becomes
MFSPEC_SIZE_KNOWN and `head_len` is returned. -/
theorem c6_writeSpecPart (fuel : Nat) (fs : FS) (st : Storage) (sf : StorageFile)
    (buf : List Char) (n : Nat) (off : Int)
    (hres : 0 ≤ (writeSpecPart fuel fs st sf buf n off).1) :
    (off + (writeBuffer fs sf buf n off).1.1 = sf.end_ + 1 →
      writeSpecPart fuel fs st sf buf n off =
        ((writeBuffer fs sf buf n off).1.1 +
          (writeM fuel (writeBuffer fs sf buf n off).2
            ({ st with state_ := StorState.MFSPEC_COMPLETE, sfs_ := st.sfs_ ++ (parseSpec (writeBuffer fs sf buf n off).2 ((writeBuffer fs sf buf n off).2.readLines sf.spec_pathname_) sf).2 })
            (buf.drop (writeBuffer fs sf buf n off).1.1.toNat)
            (writeBuffer fs sf buf n off).1.2.toNat
            (off + (writeBuffer fs sf buf n off).1.1)).1,
         (writeM fuel (writeBuffer fs sf buf n off).2
            ({ st with state_ := StorState.MFSPEC_COMPLETE, sfs_ := st.sfs_ ++ (parseSpec (writeBuffer fs sf buf n off).2 ((writeBuffer fs sf buf n off).2.readLines sf.spec_pathname_) sf).2 })
            (buf.drop (writeBuffer fs sf buf n off).1.1.toNat)
            (writeBuffer fs sf buf n off).1.2.toNat
            (off + (writeBuffer fs sf buf n off).1.1)).2)
      ∧ (writeSpecPart fuel fs st sf buf n off).2.1.state_ = StorState.MFSPEC_COMPLETE
      ∧ (writeSpecPart fuel fs st sf buf n off).2.1.sfs_ =
          st.sfs_ ++ (parseSpec (writeBuffer fs sf buf n off).2
            ((writeBuffer fs sf buf n off).2.readLines sf.spec_pathname_) sf).2
      ∧ 0 ≤ (parseSpec (writeBuffer fs sf buf n off).2
            ((writeBuffer fs sf buf n off).2.readLines sf.spec_pathname_) sf).1)
    ∧ (off + (writeBuffer fs sf buf n off).1.1 ≠ sf.end_ + 1 →
      writeSpecPart fuel fs st sf buf n off =
        ((writeBuffer fs sf buf n off).1.1,
         { st with state_ := StorState.MFSPEC_SIZE_KNOWN },
         (writeBuffer fs sf buf n off).2)) := by
  have hh : (writeBuffer fs sf buf n off).1.1 ≠ -1 := by
    intro hc
    have hcall : writeSpecPart fuel fs st sf buf n off =
        (-1, st, (writeBuffer fs sf buf n off).2) := by
      unfold writeSpecPart writeSpecPartCore
      dsimp only
      rw [if_pos hc]
    rw [hcall] at hres
    exact absurd hres (by norm_num)
  constructor
  · intro hoff
    by_cases hpr : (parseSpec (writeBuffer fs sf buf n off).2
        ((writeBuffer fs sf buf n off).2.readLines sf.spec_pathname_) sf).1 < 0
    · exfalso
      have hcall : (writeSpecPart fuel fs st sf buf n off).1 = -1 := by
        unfold writeSpecPart writeSpecPartCore
        dsimp only
        rw [if_neg hh, if_pos hoff, if_pos hpr]
      rw [hcall] at hres
      exact absurd hres (by norm_num)
    · by_cases hw : (writeM fuel (writeBuffer fs sf buf n off).2
          ({ st with state_ := StorState.MFSPEC_COMPLETE, sfs_ := st.sfs_ ++ (parseSpec (writeBuffer fs sf buf n off).2 ((writeBuffer fs sf buf n off).2.readLines sf.spec_pathname_) sf).2 })
          (buf.drop (writeBuffer fs sf buf n off).1.1.toNat)
          (writeBuffer fs sf buf n off).1.2.toNat
          (off + (writeBuffer fs sf buf n off).1.1)).1 < 0
      · exfalso
        have hcall : (writeSpecPart fuel fs st sf buf n off).1 =
            (writeM fuel (writeBuffer fs sf buf n off).2
              ({ st with state_ := StorState.MFSPEC_COMPLETE, sfs_ := st.sfs_ ++ (parseSpec (writeBuffer fs sf buf n off).2 ((writeBuffer fs sf buf n off).2.readLines sf.spec_pathname_) sf).2 })
              (buf.drop (writeBuffer fs sf buf n off).1.1.toNat)
              (writeBuffer fs sf buf n off).1.2.toNat
              (off + (writeBuffer fs sf buf n off).1.1)).1 := by
          unfold writeSpecPart writeSpecPartCore
          dsimp only
          rw [if_neg hh, if_pos hoff, if_neg hpr, if_pos hw]
        rw [hcall] at hres
        exact absurd hw (not_lt.mpr hres)
      · have hcall : writeSpecPart fuel fs st sf buf n off =
            ((writeBuffer fs sf buf n off).1.1 +
              (writeM fuel (writeBuffer fs sf buf n off).2
                ({ st with state_ := StorState.MFSPEC_COMPLETE, sfs_ := st.sfs_ ++ (parseSpec (writeBuffer fs sf buf n off).2 ((writeBuffer fs sf buf n off).2.readLines sf.spec_pathname_) sf).2 })
                (buf.drop (writeBuffer fs sf buf n off).1.1.toNat)
                (writeBuffer fs sf buf n off).1.2.toNat
                (off + (writeBuffer fs sf buf n off).1.1)).1,
             (writeM fuel (writeBuffer fs sf buf n off).2
                ({ st with state_ := StorState.MFSPEC_COMPLETE, sfs_ := st.sfs_ ++ (parseSpec (writeBuffer fs sf buf n off).2 ((writeBuffer fs sf buf n off).2.readLines sf.spec_pathname_) sf).2 })
                (buf.drop (writeBuffer fs sf buf n off).1.1.toNat)
                (writeBuffer fs sf buf n off).1.2.toNat
                (off + (writeBuffer fs sf buf n off).1.1)).2) := by
          unfold writeSpecPart writeSpecPartCore
          dsimp only
          rw [if_neg hh, if_pos hoff, if_neg hpr, if_neg hw]
        have hfix := writeM_complete_storage fuel (writeBuffer fs sf buf n off).2
          ({ st with state_ := StorState.MFSPEC_COMPLETE, sfs_ := st.sfs_ ++ (parseSpec (writeBuffer fs sf buf n off).2 ((writeBuffer fs sf buf n off).2.readLines sf.spec_pathname_) sf).2 })
          (buf.drop (writeBuffer fs sf buf n off).1.1.toNat)
          (writeBuffer fs sf buf n off).1.2.toNat
          (off + (writeBuffer fs sf buf n off).1.1) rfl
        refine ⟨hcall, ?_, ?_, not_lt.mp hpr⟩
        · rw [hcall]
          dsimp only
          rw [hfix]
        · rw [hcall]
          dsimp only
          rw [hfix]
  · intro hoff
    unfold writeSpecPart writeSpecPartCore
    dsimp only
    rw [if_neg hh, if_neg hoff]

/-- Witness for C6: completing the 10-byte spec in one exact write moves
the volume to MFSPEC_COMPLETE with the parsed entries appended, while a
5-byte prefix write moves it to MFSPEC_SIZE_KNOWN returning 5. -/
theorem c6_witness :
    (writeSpecPart 2 c6FS st6 ⟨"m", 0, 9, 3⟩ "0123456789".data 10 0).2.1.state_
        = StorState.MFSPEC_COMPLETE
    ∧ (writeSpecPart 2 c6FS st6 ⟨"m", 0, 9, 3⟩ "01234".data 5 0) =
        (5, { st6 with state_ := StorState.MFSPEC_SIZE_KNOWN },
         (writeBuffer c6FS ⟨"m", 0, 9, 3⟩ "01234".data 5 0).2) :=
  ⟨((c6_writeSpecPart 2 c6FS st6 ⟨"m", 0, 9, 3⟩ "0123456789".data 10 0
      (by decide)).1 (by decide)).2.1,
   (c6_writeSpecPart 2 c6FS st6 ⟨"m", 0, 9, 3⟩ "01234".data 5 0
      (by decide)).2 (by decide)⟩

/-- A map over `List.range l.length` that agrees with `l.getD` rebuilds `l`. -/
theorem range_map_getD (l : List Char) (g : Nat → Char)
    (hg : ∀ i, i < l.length → g i = l.getD i '\x00') :
    (List.range l.length).map g = l := by
  induction l generalizing g with
  | nil => rfl
  | cons c tl ih =>
    have hr : List.range (tl.length + 1) = 0 :: (List.range tl.length).map Nat.succ :=
      List.range_succ_eq_map tl.length
    simp only [List.length_cons, hr, List.map_cons, List.map_map]
    congr 1
    · exact hg 0 (Nat.succ_pos tl.length)
    · refine ih (fun i => g (i + 1)) ?_
      intro i hi
      have := hg (i + 1) (by simpa using Nat.succ_lt_succ hi)
      simpa [List.getD_cons_succ] using this

/-- A full `pwrite` of the whole buffer deposits exactly the buffer on
the disk image at the target offset. -/
theorem pwriteM_disk_of_full (fs : FS) (fd : Int) (buf : List Char) (o : Int)
    (hw : fs.pwriteCount fd buf.length o = (buf.length : Int)) :
    ((pwriteM fs fd buf buf.length o).2).disk = diskWrite fs.disk fd o buf := by
  unfold pwriteM
  dsimp only
  rw [hw, if_neg (not_lt.mpr (Int.natCast_nonneg _))]
  rw [Int.toNat_natCast, Nat.min_self, List.take_length, List.take_length]

/-- A full `pwrite` returns the full byte count. -/
theorem pwriteM_fst_of_full (fs : FS) (fd : Int) (buf : List Char) (o : Int)
    (hw : fs.pwriteCount fd buf.length o = (buf.length : Int)) :
    (pwriteM fs fd buf buf.length o).1 = (buf.length : Int) := by
  unfold pwriteM
  dsimp only
  rw [hw, if_neg (not_lt.mpr (Int.natCast_nonneg _))]
  rw [Int.toNat_natCast, Nat.min_self]

/-- C7: in SINGLE_FILE state, a successful full `Write(buf, n, o)`
followed by `Read(out, n, o)` with no intervening mutation yields
`out = buf` (and the full byte count) — the single-file round trip. -/
theorem c7_single_roundtrip (fs : FS) (st : Storage) (buf : List Char) (o : Int) (fuel : Nat)
    (hst : st.state_ = StorState.SINGLE_FILE)
    (hw : fs.pwriteCount st.single_fd_ buf.length o = (buf.length : Int))
    (hr : fs.preadCount st.single_fd_ buf.length o = (buf.length : Int)) :
    (writeM (fuel + 1) fs st buf buf.length o).1 = (buf.length : Int)
    ∧ readM (fuel + 1) (writeM (fuel + 1) fs st buf buf.length o).2.2 st buf.length o
        = ((buf.length : Int), buf) := by
  have hwfst : (writeM (fuel + 1) fs st buf buf.length o).1 = (buf.length : Int) := by
    simp only [writeM, hst]
    exact pwriteM_fst_of_full fs st.single_fd_ buf o hw
  have hwsnd : (writeM (fuel + 1) fs st buf buf.length o).2.2 =
      (pwriteM fs st.single_fd_ buf buf.length o).2 := by
    simp only [writeM, hst]
  refine ⟨hwfst, ?_⟩
  rw [hwsnd]
  simp only [readM, hst]
  unfold preadM
  dsimp only
  rw [pwriteM_preadCount, hr, if_neg (not_lt.mpr (Int.natCast_nonneg _)),
    Int.toNat_natCast, Nat.min_self]
  refine Prod.ext rfl ?_
  show (List.range buf.length).map
      (fun (i : Nat) => ((pwriteM fs st.single_fd_ buf buf.length o).2).disk st.single_fd_ (o + (i : Int)))
      = buf
  refine range_map_getD buf _ ?_
  intro i hi
  rw [pwriteM_disk_of_full fs st.single_fd_ buf o hw]
  unfold diskWrite
  rw [if_pos ⟨rfl, by omega, by omega⟩]
  congr 1
  omega

/-- Witness for C7: writing `"AB"` at offset 5 and reading it back. -/
theorem c7_witness :
    (writeM 1 okFS c7St "AB".data 2 5).1 = 2
    ∧ readM 1 (writeM 1 okFS c7St "AB".data 2 5).2.2 c7St 2 5 = (2, "AB".data) :=
  ⟨(c7_single_roundtrip okFS c7St "AB".data 5 0 (by decide) (by decide) (by decide)).1,
   (c7_single_roundtrip okFS c7St "AB".data 5 0 (by decide) (by decide) (by decide)).2⟩

/-- C1 counterexample: in MFSPEC_COMPLETE, a straddling 8-byte write at
offset 40 whose head (3 bytes into `a/b`) succeeds and whose recursive
tail write (into `c`, fd 5) fails returns the failure code `-1`, not the
head byte count 3 — refuting the claim that the call returns the head
byte count when the tail write fails. -/
theorem c1_counterexample :
    findStorageFile cSt.sfs_ 40 = some ⟨"a/b", 40, 42, 4⟩
    ∧ (writeBuffer c1FS ⟨"a/b", 40, 42, 4⟩ "AAABBBBB".data 8 40).1.1 = 3
    ∧ (writeM 3 c1FS cSt "AAABBBBB".data 8 40).1 = -1
    ∧ ¬((-1 : Int) = 3) ∧ ((-1 : Int) < 0) := by decide

/-- C2 counterexample: `sscanf("%lld")` accepts the negative size in the
line `b -3`, so the parse succeeds (returns 0) yet the resulting files
vector `m0 :: appended` is not sorted by `start_`: entry 2 starts at 15
while entry 3 starts at 12. -/
theorem c2_counterexample :
    (parseSpec okFS c2Lines m0).1 = 0
    ∧ ((m0 :: (parseSpec okFS c2Lines m0).2).getD 2 dfltSF).start_ = 15
    ∧ ((m0 :: (parseSpec okFS c2Lines m0).2).getD 3 dfltSF).start_ = 12
    ∧ ¬((15 : Int) ≤ 12) := by decide

/-- C3 counterexample: a Volume constructed on the existing manifest path
`/x` reaches MFSPEC_COMPLETE with `files[0].spec_path = "/x"`, which
starts with the separator `/` — so it is not true that no BackingFile
ever stored in `files` has a `spec_path` starting with `/`. -/
theorem c3_counterexample :
    (storageCtor c3FS "/x").1.state_ = StorState.MFSPEC_COMPLETE
    ∧ ((storageCtor c3FS "/x").1.sfs_.getD 0 dfltSF).spec_pathname_ = "/x"
    ∧ startsWithSep "/x".data = true := by decide

/-- C4: evaluating ParseSpec at the failing input.  The second manifest
line `"a \n"` has an empty size field; `sscanf` returns `EOF = -1`, which
the code's `n == 0` test does not catch, so the parse succeeds (status 0)
and appends an entry `a` of size 0 instead of reporting an error. -/
theorem c4_empty_size_accepted :
    sscanfLLD (sizeField "a \n".data) = (-1, 0)
    ∧ (parseSpec okFS c4Lines m0).1 = 0
    ∧ (parseSpec okFS c4Lines m0).2 =
        [{ spec_pathname_ := "a", start_ := 10, end_ := 9, fd_ := 9 }] := by decide

/-- Entries appended by the ParseSpec loop all have safe paths: the
safety checks run before any append, and a failing line stops the loop. -/
theorem parseSpecLoop_safe (fs : FS) (sf0 : StorageFile) :
    ∀ (lines : List (List Char)) (offset : Int) (acc : List StorageFile),
      (∀ x ∈ acc, startsWithSep x.spec_pathname_.data = false
        ∧ hasDotDot x.spec_pathname_.data = false) →
      ∀ x ∈ (parseSpecLoop fs sf0 lines offset acc).2,
        startsWithSep x.spec_pathname_.data = false
        ∧ hasDotDot x.spec_pathname_.data = false := by
  intro lines
  induction lines with
  | nil => intro offset acc hacc x hx; exact hacc x hx
  | cons line rest ih =>
    intro offset acc hacc x hx
    simp only [parseSpecLoop] at hx
    split at hx
    · exact hacc x hx
    · split at hx
      · exact hacc x hx
      next hn1 =>
        split at hx
        · exact hacc x hx
        next hn2 =>
          split at hx
          · exact ih _ acc hacc x hx
          · refine ih _ (acc ++ [mkStorageFile fs (String.mk (specField line)) offset
              (sscanfLLD (sizeField line)).2]) ?_ x hx
            intro y hy
            rcases List.mem_append.mp hy with hy1 | hy2
            · exact hacc y hy1
            · have hyeq : y = mkStorageFile fs (String.mk (specField line)) offset
                  (sscanfLLD (sizeField line)).2 := List.mem_singleton.mp hy2
              subst hyeq
              constructor
              · show startsWithSep (specField line) = false
                revert hn1
                cases startsWithSep (specField line) <;> simp
              · show hasDotDot (specField line) = false
                revert hn2
                cases hasDotDot (specField line) <;> simp

/-- C3 (amended): a manifest line whose `spec_path` starts with `/` or
contains `..` makes the parse loop return failure without appending that
entry, and consequently no BackingFile appended by ParseSpec has an
unsafe `spec_path`.  (`files[0]`, created by the constructor, is not
subject to these checks and may hold an absolute root path.) -/
theorem c3_amended_path_safety :
    (∀ (fs : FS) (sf0 : StorageFile) (line : List Char) (rest : List (List Char))
        (offset : Int) (acc : List StorageFile),
      startsWithSep (specField line) = true ∨ hasDotDot (specField line) = true →
      parseSpecLoop fs sf0 (line :: rest) offset acc = (-1, acc))
    ∧ (∀ (fs : FS) (lines : List (List Char)) (sf0 : StorageFile) (x : StorageFile),
        x ∈ (parseSpec fs lines sf0).2 →
        startsWithSep x.spec_pathname_.data = false
        ∧ hasDotDot x.spec_pathname_.data = false) := by
  constructor
  · intro fs sf0 line rest offset acc h
    simp only [parseSpecLoop]
    split
    · rfl
    · split
      · rfl
      next hn1 =>
        split
        · rfl
        next hn2 =>
          exfalso
          cases h with
          | inl hl => exact hn1 hl
          | inr hr => exact hn2 hr
  · intro fs lines sf0 x hx
    exact parseSpecLoop_safe fs sf0 lines 0 []
      (fun y hy => absurd hy (List.not_mem_nil y)) x hx

/-- Witness for C3 (amended): the unsafe line `/e 4` aborts the loop
appending nothing, and the entry appended for the well-formed line `a 5`
has a safe path. -/
theorem c3_amended_witness :
    parseSpecLoop okFS m0 ["/e 4\n".data] 5 [] = (-1, [])
    ∧ startsWithSep ((parseSpec okFS c2wLines m0).2.getD 0 dfltSF).spec_pathname_.data = false
    ∧ hasDotDot ((parseSpec okFS c2wLines m0).2.getD 0 dfltSF).spec_pathname_.data = false :=
  ⟨c3_amended_path_safety.1 okFS m0 "/e 4\n".data [] 5 [] (Or.inl (by decide)),
   (c3_amended_path_safety.2 okFS c2wLines m0
      ((parseSpec okFS c2wLines m0).2.getD 0 dfltSF) (by decide)).1,
   (c3_amended_path_safety.2 okFS c2wLines m0
      ((parseSpec okFS c2wLines m0).2.getD 0 dfltSF) (by decide)).2⟩

/-- With a positive running offset and nonnegative parsed sizes, the
ParseSpec loop appends a contiguous chain of nonnegative-size entries
starting exactly at `offset`. -/
theorem parseSpecLoop_chain_pos (fs : FS) (sf0 : StorageFile) :
    ∀ (lines : List (List Char)) (offset : Int) (acc : List StorageFile),
      0 < offset →
      (∀ l ∈ lines, 0 ≤ (sscanfLLD (sizeField l)).2) →
      ∃ ds, (parseSpecLoop fs sf0 lines offset acc).2 = acc ++ ds
        ∧ chainFromB offset ds = true
        ∧ ∀ x ∈ ds, x.start_ ≤ x.end_ + 1 := by
  intro lines
  induction lines with
  | nil =>
    intro offset acc _ _
    exact ⟨[], (List.append_nil acc).symm, rfl, fun x hx => absurd hx (List.not_mem_nil x)⟩
  | cons line rest ih =>
    intro offset acc hpos hls
    simp only [parseSpecLoop]
    split
    · exact ⟨[], (List.append_nil acc).symm, rfl, fun x hx => absurd hx (List.not_mem_nil x)⟩
    · split
      · exact ⟨[], (List.append_nil acc).symm, rfl, fun x hx => absurd hx (List.not_mem_nil x)⟩
      · split
        · exact ⟨[], (List.append_nil acc).symm, rfl, fun x hx => absurd hx (List.not_mem_nil x)⟩
        · split
          next hz => exact absurd hz (by omega)
          next hz =>
            have hsz : 0 ≤ (sscanfLLD (sizeField line)).2 :=
              hls line (List.mem_cons_self line rest)
            obtain ⟨ds, h1, h2, h3⟩ := ih (offset + (sscanfLLD (sizeField line)).2)
              (acc ++ [mkStorageFile fs (String.mk (specField line)) offset
                (sscanfLLD (sizeField line)).2])
              (by omega) (fun l hl => hls l (List.mem_cons_of_mem line hl))
            refine ⟨mkStorageFile fs (String.mk (specField line)) offset
                (sscanfLLD (sizeField line)).2 :: ds, ?_, ?_, ?_⟩
            · rw [h1, List.append_assoc]
              rfl
            · have hend : (mkStorageFile fs (String.mk (specField line)) offset
                  (sscanfLLD (sizeField line)).2).end_ + 1 =
                  offset + (sscanfLLD (sizeField line)).2 := by
                unfold mkStorageFile
                dsimp only
                ring
              simp only [chainFromB, Bool.and_eq_true, decide_eq_true_eq]
              exact ⟨rfl, by rw [hend]; exact h2⟩
            · intro x hx
              rcases List.mem_cons.mp hx with hx1 | hx2
              · subst hx1
                show offset ≤ offset + (sscanfLLD (sizeField line)).2 - 1 + 1
                omega
              · exact h3 x hx2

/-- From offset 0 (where the self entry is skipped), the loop appends a
chain starting at the spec's own size. -/
theorem parseSpecLoop_chain_zero (fs : FS) (sf0 : StorageFile) (hsz0 : 0 ≤ sfSize sf0) :
    ∀ (lines : List (List Char)) (acc : List StorageFile),
      (∀ l ∈ lines, 0 ≤ (sscanfLLD (sizeField l)).2) →
      ∃ ds, (parseSpecLoop fs sf0 lines 0 acc).2 = acc ++ ds
        ∧ chainFromB (sfSize sf0) ds = true
        ∧ ∀ x ∈ ds, x.start_ ≤ x.end_ + 1 := by
  intro lines
  induction lines with
  | nil =>
    intro acc _
    exact ⟨[], (List.append_nil acc).symm, rfl, fun x hx => absurd hx (List.not_mem_nil x)⟩
  | cons line rest ih =>
    intro acc hls
    simp only [parseSpecLoop]
    split
    · exact ⟨[], (List.append_nil acc).symm, rfl, fun x hx => absurd hx (List.not_mem_nil x)⟩
    · split
      · exact ⟨[], (List.append_nil acc).symm, rfl, fun x hx => absurd hx (List.not_mem_nil x)⟩
      · split
        · exact ⟨[], (List.append_nil acc).symm, rfl, fun x hx => absurd hx (List.not_mem_nil x)⟩
        · rw [if_true]
          rcases eq_or_lt_of_le hsz0 with hz | hp
          · have h00 : (0 : Int) + sfSize sf0 = 0 := by omega
            rw [h00]
            exact ih acc (fun l hl => hls l (List.mem_cons_of_mem line hl))
          · have h0s : (0 : Int) + sfSize sf0 = sfSize sf0 := by omega
            rw [h0s]
            exact parseSpecLoop_chain_pos fs sf0 rest (sfSize sf0) acc hp
              (fun l hl => hls l (List.mem_cons_of_mem line hl))

/-- A chain starting at `o` is contiguous after any entry ending at `o - 1`. -/
theorem chainFromB_chainContig :
    ∀ (ds : List StorageFile) (p : StorageFile) (o : Int),
      chainFromB o ds = true → p.end_ + 1 = o → chainContig p ds = true := by
  intro ds
  induction ds with
  | nil => intro p o _ _; rfl
  | cons x xs ih =>
    intro p o hc hp
    simp only [chainFromB, Bool.and_eq_true, decide_eq_true_eq] at hc
    simp only [chainContig, Bool.and_eq_true, beq_iff_eq]
    exact ⟨by rw [hp, hc.1], ih x (x.end_ + 1) hc.2 rfl⟩

/-- A contiguous chain of nonnegative-size entries is sorted by `start_`. -/
theorem chainContig_chainSorted :
    ∀ (ds : List StorageFile) (p : StorageFile),
      chainContig p ds = true → p.start_ ≤ p.end_ + 1 →
      (∀ x ∈ ds, x.start_ ≤ x.end_ + 1) → chainSorted p ds = true := by
  intro ds
  induction ds with
  | nil => intro p _ _ _; rfl
  | cons x xs ih =>
    intro p hc hp hxs
    simp only [chainContig, Bool.and_eq_true, beq_iff_eq] at hc
    simp only [chainSorted, Bool.and_eq_true, decide_eq_true_eq]
    constructor
    · omega
    · exact ih x hc.2 (hxs x (List.mem_cons_self x xs))
        (fun y hy => hxs y (List.mem_cons_of_mem x hy))

/-- C2 (amended): when every size parsed from the manifest — including
the spec's own declared size — is nonnegative, a successful parse yields
a files vector `sf0 :: appended` that is contiguous
(`files[i].end_ + 1 = files[i+1].start_`), sorted by `start_`, with
`files[0]` the manifest entry itself and `files[0].start_ = 0`.  (The
counterexample shows sortedness fails when a negative size is parsed.) -/
theorem c2_amended_parse_invariant (fs : FS) (lines : List (List Char)) (sf0 : StorageFile)
    (h0 : sf0.start_ = 0) (hsz0 : 0 ≤ sfSize sf0)
    (hls : ∀ l ∈ lines, 0 ≤ (sscanfLLD (sizeField l)).2)
    (hok : (parseSpec fs lines sf0).1 = 0) :
    contigB (sf0 :: (parseSpec fs lines sf0).2) = true
    ∧ sortedB (sf0 :: (parseSpec fs lines sf0).2) = true
    ∧ (sf0 :: (parseSpec fs lines sf0).2).getD 0 dfltSF = sf0
    ∧ sf0.start_ = 0 := by
  obtain ⟨ds, h1, h2, h3⟩ := parseSpecLoop_chain_zero fs sf0 hsz0 lines [] hls
  have hds : (parseSpec fs lines sf0).2 = ds := by
    unfold parseSpec
    rw [h1]
    exact List.nil_append ds
  have hend : sf0.end_ + 1 = sfSize sf0 := by
    unfold sfSize
    omega
  have hcc : chainContig sf0 ds = true := chainFromB_chainContig ds sf0 (sfSize sf0) h2 hend
  have hsf0 : sf0.start_ ≤ sf0.end_ + 1 := by
    unfold sfSize at hsz0
    omega
  refine ⟨?_, ?_, rfl, h0⟩
  · rw [hds]
    exact hcc
  · rw [hds]
    exact chainContig_chainSorted ds sf0 hcc hsf0 h3

/-- Witness for C2 (amended): parsing the well-formed two-line manifest
yields a contiguous, sorted files vector headed by the manifest entry. -/
theorem c2_amended_witness :
    contigB (m0 :: (parseSpec okFS c2wLines m0).2) = true
    ∧ sortedB (m0 :: (parseSpec okFS c2wLines m0).2) = true :=
  ⟨(c2_amended_parse_invariant okFS c2wLines m0 (by decide) (by decide) (by decide)
      (by decide)).1,
   (c2_amended_parse_invariant okFS c2wLines m0 (by decide) (by decide) (by decide)
      (by decide)).2.1⟩

/-- Index form of the contiguity invariant. -/
theorem chainContig_getD :
    ∀ (xs : List StorageFile) (p : StorageFile),
      chainContig p xs = true →
      ∀ i, i + 1 < (p :: xs).length →
        ((p :: xs).getD i dfltSF).end_ + 1 = ((p :: xs).getD (i + 1) dfltSF).start_ := by
  intro xs
  induction xs with
  | nil =>
    intro p _ i hi
    simp at hi
  | cons x ys ih =>
    intro p hc i hi
    simp only [chainContig, Bool.and_eq_true, beq_iff_eq] at hc
    cases i with
    | zero => simpa using hc.1
    | succ j =>
      have hj : j + 1 < (x :: ys).length := by
        simp only [List.length_cons] at hi ⊢
        omega
      simpa [List.getD_cons_succ] using ih x hc.2 j hj

/-- `contigB` gives contiguity at every adjacent index pair. -/
theorem contigB_getD (sfs : List StorageFile) (hc : contigB sfs = true) :
    ∀ i, i + 1 < sfs.length →
      (sfs.getD i dfltSF).end_ + 1 = (sfs.getD (i + 1) dfltSF).start_ := by
  cases sfs with
  | nil => intro i hi; simp at hi
  | cons x xs => exact chainContig_getD xs x hc

/-- `sizesOkB` gives the nonnegative-size bound at every index. -/
theorem sizesOkB_getD :
    ∀ (sfs : List StorageFile), sizesOkB sfs = true →
      ∀ i, i < sfs.length →
        (sfs.getD i dfltSF).start_ ≤ (sfs.getD i dfltSF).end_ + 1 := by
  intro sfs
  induction sfs with
  | nil => intro _ i hi; simp at hi
  | cons x xs ih =>
    intro hs i hi
    simp only [sizesOkB, List.all_cons, Bool.and_eq_true, decide_eq_true_eq] at hs
    cases i with
    | zero => exact hs.1
    | succ j =>
      have hj : j < xs.length := by
        simp only [List.length_cons] at hi
        omega
      simpa [List.getD_cons_succ] using ih hs.2 j hj

/-- Under the invariants, ranges of distinct files are separated:
`end_j + 1 ≤ start_k` for `j < k`. -/
theorem sep_of_invariants (sfs : List StorageFile)
    (hc : contigB sfs = true) (hs : sizesOkB sfs = true) :
    ∀ j k, j < k → k < sfs.length →
      (sfs.getD j dfltSF).end_ + 1 ≤ (sfs.getD k dfltSF).start_ := by
  intro j k
  induction k with
  | zero => intro hjk _; omega
  | succ m ih =>
    intro hjk hk
    rcases Nat.lt_succ_iff_lt_or_eq.mp hjk with h | h
    · have h1 := ih h (by omega)
      have h2 := sizesOkB_getD sfs hs m (by omega)
      have h3 := contigB_getD sfs hc m hk
      omega
    · subst h
      have h3 := contigB_getD sfs hc j hk
      omega

/-- Under the invariants, `start_` is monotone in the index. -/
theorem start_mono_of_invariants (sfs : List StorageFile)
    (hc : contigB sfs = true) (hs : sizesOkB sfs = true) :
    ∀ j k, j ≤ k → k < sfs.length →
      (sfs.getD j dfltSF).start_ ≤ (sfs.getD k dfltSF).start_ := by
  intro j k hjk hk
  rcases Nat.lt_or_eq_of_le hjk with h | h
  · have h1 := sep_of_invariants sfs hc hs j k h hk
    have h2 := sizesOkB_getD sfs hs j (by omega)
    omega
  · subst h
    omega

/-- Under the invariants, `end_` is monotone in the index. -/
theorem end_mono_of_invariants (sfs : List StorageFile)
    (hc : contigB sfs = true) (hs : sizesOkB sfs = true) :
    ∀ j k, j ≤ k → k < sfs.length →
      (sfs.getD j dfltSF).end_ ≤ (sfs.getD k dfltSF).end_ := by
  intro j k hjk hk
  rcases Nat.lt_or_eq_of_le hjk with h | h
  · have h1 := sep_of_invariants sfs hc hs j k h hk
    have h2 := sizesOkB_getD sfs hs k hk
    omega
  · subst h
    omega

/-- The binary-search loop finds the (unique) file containing `o`
whenever its index lies in the current search window and the fuel covers
the window width. -/
theorem fsfLoop_found (sfs : List StorageFile) (o : Int)
    (hc : contigB sfs = true) (hs : sizesOkB sfs = true) (i : Nat)
    (hi : i < sfs.length)
    (hlo : (sfs.getD i dfltSF).start_ ≤ o) (hhi : o ≤ (sfs.getD i dfltSF).end_) :
    ∀ (fuel : Nat) (imin imax : Int),
      0 ≤ imin → imin ≤ (i : Int) → (i : Int) ≤ imax → imax < (sfs.length : Int) →
      (imax - imin + 1).toNat ≤ fuel →
      fsfLoop sfs o fuel imin imax = some (sfs.getD i dfltSF) := by
  intro fuel
  induction fuel with
  | zero => intro imin imax h1 h2 h3 h4 h5; omega
  | succ f ih =>
    intro imin imax h1 h2 h3 h4 h5
    simp only [fsfLoop]
    rw [if_neg (by omega : ¬ imax < imin)]
    have hb1 : imin ≤ (imin + imax) / 2 := by omega
    have hb2 : (imin + imax) / 2 ≤ imax := by omega
    have hmidlen : ((imin + imax) / 2).toNat < sfs.length := by omega
    split
    next hge =>
      have hgt : (imin + imax) / 2 + 1 ≤ (i : Int) := by
        by_contra hcon
        push_neg at hcon
        have hle : i ≤ ((imin + imax) / 2).toNat := by omega
        have hmono := end_mono_of_invariants sfs hc hs i ((imin + imax) / 2).toNat hle hmidlen
        omega
      exact ih ((imin + imax) / 2 + 1) imax (by omega) hgt h3 h4 (by omega)
    next hge =>
      split
      next hlt =>
        have hlt2 : (i : Int) ≤ (imin + imax) / 2 - 1 := by
          by_contra hcon
          push_neg at hcon
          have hle : ((imin + imax) / 2).toNat ≤ i := by omega
          have hmono := start_mono_of_invariants sfs hc hs ((imin + imax) / 2).toNat i hle hi
          omega
        exact ih imin ((imin + imax) / 2 - 1) h1 h2 hlt2 (by omega) (by omega)
      next hlt =>
        have heq : i = ((imin + imax) / 2).toNat := by
          rcases Nat.lt_trichotomy i ((imin + imax) / 2).toNat with h | h | h
          · have := sep_of_invariants sfs hc hs i ((imin + imax) / 2).toNat h hmidlen
            omega
          · exact h
          · have := sep_of_invariants sfs hc hs ((imin + imax) / 2).toNat i h hi
            omega
        rw [heq]

/-- The binary-search loop returns `none` when no file in range contains
`o`. -/
theorem fsfLoop_none (sfs : List StorageFile) (o : Int)
    (hnone : ∀ k, k < sfs.length →
      ¬((sfs.getD k dfltSF).start_ ≤ o ∧ o ≤ (sfs.getD k dfltSF).end_)) :
    ∀ (fuel : Nat) (imin imax : Int), 0 ≤ imin → imax < (sfs.length : Int) →
      fsfLoop sfs o fuel imin imax = none := by
  intro fuel
  induction fuel with
  | zero => intro imin imax _ _; rfl
  | succ f ih =>
    intro imin imax h1 h2
    simp only [fsfLoop]
    split
    · rfl
    next hwin =>
      split
      next => exact ih ((imin + imax) / 2 + 1) imax (by omega) h2
      next hge =>
        split
        next => exact ih imin ((imin + imax) / 2 - 1) h1 (by omega)
        next hlt =>
          exfalso
          have hmid : ((imin + imax) / 2).toNat < sfs.length := by omega
          exact hnone _ hmid ⟨by omega, by omega⟩

/-- C5: under the sorted/contiguous invariant (with `files[0].start = 0`),
`FindStorageFile(o)` returns the unique BackingFile whose half-closed
interval `[start, end+1)` contains `o`, and `NULL` (`none`) for every
offset outside the union `[0, total_size)`. -/
theorem c5_findStorageFile (sfs : List StorageFile) (o : Int)
    (hc : contigB sfs = true) (hs : sizesOkB sfs = true)
    (h0 : (sfs.getD 0 dfltSF).start_ = 0) :
    (∀ i, i < sfs.length →
      (sfs.getD i dfltSF).start_ ≤ o → o ≤ (sfs.getD i dfltSF).end_ →
      findStorageFile sfs o = some (sfs.getD i dfltSF))
    ∧ ((o < 0 ∨ (sfs.getD (sfs.length - 1) dfltSF).end_ < o) →
      findStorageFile sfs o = none) := by
  constructor
  · intro i hi hlo hhi
    unfold findStorageFile
    exact fsfLoop_found sfs o hc hs i hi hlo hhi (sfs.length + 1) 0 ((sfs.length : Int) - 1)
      (by omega) (by omega) (by omega) (by omega) (by omega)
  · intro hout
    unfold findStorageFile
    refine fsfLoop_none sfs o ?_ (sfs.length + 1) 0 ((sfs.length : Int) - 1)
      (by omega) (by omega)
    intro k hk hcon
    obtain ⟨hk1, hk2⟩ := hcon
    cases hout with
    | inl hneg =>
      have := start_mono_of_invariants sfs hc hs 0 k (Nat.zero_le k) hk
      omega
    | inr hbig =>
      have := end_mono_of_invariants sfs hc hs k (sfs.length - 1) (by omega) (by omega)
      omega

/-- Witness for C5: in the S2 volume, offset 41 resolves to `a/b`
(files[1]) and offset 99 is not found. -/
theorem c5_witness :
    findStorageFile cSt.sfs_ 41 = some (cSt.sfs_.getD 1 dfltSF)
    ∧ findStorageFile cSt.sfs_ 99 = none :=
  ⟨(c5_findStorageFile cSt.sfs_ 41 (by decide) (by decide) (by decide)).1 1
      (by decide) (by decide) (by decide),
   (c5_findStorageFile cSt.sfs_ 99 (by decide) (by decide) (by decide)).2
      (Or.inr (by decide))⟩

/-- `file_resize` returns the oracle's status. -/
theorem fileResize_fst (fs : FS) (fd : Int) (sz : Int) :
    (fileResize fs fd sz).1 = fs.resizeRes fd sz := by
  unfold fileResize
  dsimp only
  split <;> rfl

/-- A successful `file_resize` sets the file's length to exactly `sz`. -/
theorem fileResize_fileLen_self (fs : FS) (fd : Int) (sz : Int)
    (h : 0 ≤ fs.resizeRes fd sz) : ((fileResize fs fd sz).2).fileLen fd = sz := by
  unfold fileResize
  dsimp only
  rw [if_neg (not_lt.mpr h)]
  dsimp only
  rw [if_pos rfl]

/-- C8: `ResizeReserved(S)` in INIT returns success (0) and records `S`
in `reserved_size_` without leaving INIT; when the volume then
transitions to SINGLE_FILE via `OpenSingleFile` (successful open and
resize), the recorded `S` is replayed so the single file's length
becomes at least `S`; and on the multi-file transition (a first write
whose head matches the sentinel) the reservation is not replayed: no
`file_resize` call is made. -/
theorem c8_postponed_reserve (fs : FS) (st : Storage) (S : Int) (buf : List Char)
    (n : Nat) (fuel : Nat)
    (hinit : st.state_ = StorState.INIT) (hS : 0 ≤ S)
    (hopen : 0 ≤ fs.openRes st.os_pathname_)
    (hresize : 0 ≤ fs.resizeRes (fs.openRes st.os_pathname_) S) :
    (resizeReserved fs st S).1 = 0
    ∧ (resizeReserved fs st S).2.1 = { st with reserved_size_ := S }
    ∧ (resizeReserved fs st S).2.1.state_ = StorState.INIT
    ∧ (openSingleFile (resizeReserved fs st S).2.2 (resizeReserved fs st S).2.1).2.1.state_
        = StorState.SINGLE_FILE
    ∧ S ≤ (openSingleFile (resizeReserved fs st S).2.2 (resizeReserved fs st S).2.1).2.2.fileLen
        ((openSingleFile (resizeReserved fs st S).2.2 (resizeReserved fs st S).2.1).2.1.single_fd_)
    ∧ (sentinelChars.isPrefixOf buf = true →
        ((writeM fuel (resizeReserved fs st S).2.2 (resizeReserved fs st S).2.1
          buf n 0).2.2).resizeTrace = fs.resizeTrace) := by
  have hnsingle : ¬ (st.state_ = StorState.SINGLE_FILE) := by
    rw [hinit]
    intro hcon
    cases hcon
  have hrr : resizeReserved fs st S = (0, { st with reserved_size_ := S }, fs) := by
    unfold resizeReserved
    rw [if_neg hnsingle]
    rw [if_pos hinit]
  rw [hrr]
  have hfd : ¬ (fs.openRes st.os_pathname_ < 0) := not_lt.mpr hopen
  have hSneq : ¬ (S = -1) := by omega
  have hrq : resizeReserved fs
      ({ st with reserved_size_ := S, state_ := StorState.SINGLE_FILE, single_fd_ := fs.openRes st.os_pathname_ } : Storage) S =
      ((fileResize fs (fs.openRes st.os_pathname_) S).1,
       ({ st with reserved_size_ := S, state_ := StorState.SINGLE_FILE, single_fd_ := fs.openRes st.os_pathname_ } : Storage),
       (fileResize fs (fs.openRes st.os_pathname_) S).2) := by
    unfold resizeReserved
    rw [if_pos rfl]
  have hores : openSingleFile fs ({ st with reserved_size_ := S } : Storage) =
      (fs.openRes st.os_pathname_,
       ({ st with reserved_size_ := S, state_ := StorState.SINGLE_FILE, single_fd_ := fs.openRes st.os_pathname_ } : Storage),
       (fileResize fs (fs.openRes st.os_pathname_) S).2) := by
    unfold openSingleFile
    dsimp only
    rw [if_neg hfd, if_pos hSneq, hrq]
    dsimp only
    rw [if_neg (by rw [fileResize_fst]; exact not_lt.mpr hresize)]
  refine ⟨rfl, rfl, hinit, ?_, ?_, ?_⟩
  · rw [hores]
  · rw [hores]
    dsimp only
    rw [fileResize_fileLen_self fs (fs.openRes st.os_pathname_) S hresize]
  · intro hp
    exact writeM_init_sentinel_trace fuel fs ({ st with reserved_size_ := S }) buf n hinit hp

/-- Witness for C8: reserving 5 bytes in INIT, then opening the single
file, leaves the file 5 bytes long; a sentinel-prefixed first write
leaves the resize trace empty. -/
theorem c8_witness :
    (resizeReserved okFS iSt 5).1 = 0
    ∧ 5 ≤ (openSingleFile (resizeReserved okFS iSt 5).2.2
          (resizeReserved okFS iSt 5).2.1).2.2.fileLen
        ((openSingleFile (resizeReserved okFS iSt 5).2.2
          (resizeReserved okFS iSt 5).2.1).2.1.single_fd_)
    ∧ ((writeM 2 (resizeReserved okFS iSt 5).2.2 (resizeReserved okFS iSt 5).2.1
        sentinelChars 26 0).2.2).resizeTrace = okFS.resizeTrace :=
  ⟨(c8_postponed_reserve okFS iSt 5 sentinelChars 26 2 rfl (by decide) (by decide)
      (by decide)).1,
   (c8_postponed_reserve okFS iSt 5 sentinelChars 26 2 rfl (by decide) (by decide)
      (by decide)).2.2.2.2.1,
   (c8_postponed_reserve okFS iSt 5 sentinelChars 26 2 rfl (by decide) (by decide)
      (by decide)).2.2.2.2.2 (by decide)⟩

end Swift
